import Mathlib

set_option maxRecDepth 8000

/-!
Shallow embedding of the airbnb-assistant core (app.py, ical_utils.py,
generator.py) and verification of the frozen claims about it.

Conventions of the embedding:
* Python strings are `List Char`; `String` values are converted with `.data`.
* Python `str.lower()` is modelled on the character repertoire the program
  manipulates (ASCII letters plus the accented vowels and enye handled by
  `UltraRobustDateParser.normalize`); characters outside that repertoire are
  left unchanged.
* `datetime.date` is the record `Date` below; Python's date ordering is the
  lexicographic order on (year, month, day) and construction validity follows
  the proleptic Gregorian calendar with Python's year range 1..9999.
* Calendar timestamps are modelled at day granularity (every event in the
  claims is a midnight-aligned Airbnb booking), so a busy event carries two
  `Date`s; only their order and max are used by the merge/overlap code.
* The network fetch of the .ics feed and the Ollama chat call are external
  collaborators; they enter the embedding as explicit arguments
  (`Except String (List BEvent)` for the fetched, recurrence-expanded event
  list, and `RawOut` for the LLM's JSON reply).
* Each Python regex is translated into an explicit backtracking matcher over
  `List Char`; alternatives are produced in Python's backtracking order and
  `re.search`/`re.finditer` semantics (leftmost match, non-overlapping scan)
  are reproduced by the `searchGo`/`finditerGo` drivers.
-/

/-! ## Characters and text normalization (UltraRobustDateParser.normalize) -/

def isSpaceChar (c : Char) : Bool :=
  c = ' ' || c = '\t' || c = '\n' || c = '\r' || c = '\x0b' || c = '\x0c'

def isWordChar (c : Char) : Bool :=
  c.isAlphanum || c = '_'

/-- Python `str.lower()` on the repertoire used by the program. -/
def lowerPairs : List (Char × Char) :=
  [('A','a'),('B','b'),('C','c'),('D','d'),('E','e'),('F','f'),('G','g'),
   ('H','h'),('I','i'),('J','j'),('K','k'),('L','l'),('M','m'),('N','n'),
   ('O','o'),('P','p'),('Q','q'),('R','r'),('S','s'),('T','t'),('U','u'),
   ('V','v'),('W','w'),('X','x'),('Y','y'),('Z','z'),
   ('Á','á'),('É','é'),('Í','í'),('Ó','ó'),('Ú','ú'),('Ñ','ñ'),('Ü','ü')]

def pyLower (c : Char) : Char :=
  match lowerPairs.find? (fun p => p.1 == c) with
  | some p => p.2
  | none => c

def pyUpper (c : Char) : Char :=
  match lowerPairs.find? (fun p => p.2 == c) with
  | some p => p.1
  | none => c

/-- The accent replacements of `UltraRobustDateParser.normalize`
    (`á é í ó ú → a e i o u`, `ñ → n`). -/
def accentPairs : List (Char × Char) :=
  [('á','a'),('é','e'),('í','i'),('ó','o'),('ú','u'),('ñ','n')]

def replAccent (c : Char) : Char :=
  match accentPairs.find? (fun p => p.1 == c) with
  | some p => p.2
  | none => c

/-- Embeds `re.sub(r'\s+', ' ', t)`: every maximal run of whitespace becomes a
    single blank.  The flag records whether we are inside a run. -/
def collapseGo : Bool → List Char → List Char
  | _, [] => []
  | inRun, c :: cs =>
    if isSpaceChar c then
      (if inRun then [] else [' ']) ++ collapseGo true cs
    else c :: collapseGo false cs

def collapseWs (l : List Char) : List Char := collapseGo false l

def dropLeadWs (l : List Char) : List Char := l.dropWhile (fun c => isSpaceChar c)

def dropTrailWs : List Char → List Char
  | [] => []
  | c :: cs =>
    match dropTrailWs cs with
    | [] => if isSpaceChar c then [] else [c]
    | r => c :: r

/-- Python `str.strip()`. -/
def stripWs (l : List Char) : List Char := dropTrailWs (dropLeadWs l)

/-- Embeds `UltraRobustDateParser.normalize`: lower-case, strip the fixed accents,
    collapse whitespace, strip. -/
def normalizeChars (l : List Char) : List Char :=
  stripWs (collapseWs ((l.map pyLower).map replAccent))

/-! ## Dates (datetime.date at day granularity) -/

structure Date where
  year : Nat
  month : Nat
  day : Nat
deriving DecidableEq, Repr

/-- Python date ordering: lexicographic on (year, month, day), strict. -/
def DLt (a b : Date) : Prop :=
  a.year < b.year ∨
    (a.year = b.year ∧ (a.month < b.month ∨ (a.month = b.month ∧ a.day < b.day)))

def DLe (a b : Date) : Prop := DLt a b ∨ a = b

instance (a b : Date) : Decidable (DLt a b) :=
  inferInstanceAs (Decidable (a.year < b.year ∨ (a.year = b.year ∧
    (a.month < b.month ∨ (a.month = b.month ∧ a.day < b.day)))))

instance (a b : Date) : Decidable (DLe a b) :=
  inferInstanceAs (Decidable (DLt a b ∨ a = b))

def isLeap (y : Nat) : Bool :=
  y % 4 = 0 && (y % 100 ≠ 0 || y % 400 = 0)

def daysInMonth (y m : Nat) : Nat :=
  if m = 2 then (if isLeap y then 29 else 28)
  else if m = 4 ∨ m = 6 ∨ m = 9 ∨ m = 11 then 30
  else 31

/-- Embeds `datetime.date(y, m, d)`: `none` models the `ValueError` raised on an
    invalid combination (Python's year range is 1..9999). -/
def mkDate (y m d : Nat) : Option Date :=
  if 1 ≤ y ∧ y ≤ 9999 ∧ 1 ≤ m ∧ m ≤ 12 ∧ 1 ≤ d ∧ d ≤ daysInMonth y m then
    some ⟨y, m, d⟩
  else none

def nextDay (d : Date) : Date :=
  if d.day < daysInMonth d.year d.month then ⟨d.year, d.month, d.day + 1⟩
  else if d.month < 12 then ⟨d.year, d.month + 1, 1⟩
  else ⟨d.year + 1, 1, 1⟩

/-- Embeds `date + timedelta(days = n)` (day-granular; Python's OverflowError past
    year 9999 is outside every claim's inputs and is not modelled). -/
def addDays (d : Date) : Nat → Date
  | 0 => d
  | n + 1 => nextDay (addDays d n)

def daysBeforeMonth (y m : Nat) : Nat :=
  let base := [0, 0, 31, 59, 90, 120, 151, 181, 212, 243, 273, 304, 334].getD m 0
  if 2 < m ∧ isLeap y then base + 1 else base

/-- Embeds `date.toordinal()`: day 1 is 0001-01-01. -/
def toOrdinal (d : Date) : Nat :=
  365 * (d.year - 1) +
    ((d.year - 1) / 4 - (d.year - 1) / 100 + (d.year - 1) / 400) +
    daysBeforeMonth d.year d.month + d.day

/-- Embeds `date.weekday()`: 0 is Monday. -/
def weekday (d : Date) : Nat := (toOrdinal d + 6) % 7

/-- Embeds `(b - a).days` for dates. -/
def nightsBetween (a b : Date) : Int := (toOrdinal b : Int) - (toOrdinal a : Int)

/-- Stable insertion used to model Python's stable `list.sort()` on dates. -/
def insertD (x : Date) : List Date → List Date
  | [] => [x]
  | y :: ys => if DLe x y then x :: y :: ys else y :: insertD x ys

def sortDates : List Date → List Date
  | [] => []
  | x :: xs => insertD x (sortDates xs)

/-- Embeds `%d`/`%m` two-digit zero padding. -/
def pad2 (n : Nat) : String := if n < 10 then "0" ++ toString n else toString n

/-- Embeds `%Y` four-digit zero padding. -/
def pad4 (n : Nat) : String :=
  if n < 10 then "000" ++ toString n
  else if n < 100 then "00" ++ toString n
  else if n < 1000 then "0" ++ toString n
  else toString n

/-- Embeds `strftime('%d/%m/%Y')`. -/
def fmtDMY (d : Date) : String :=
  pad2 d.day ++ "/" ++ pad2 d.month ++ "/" ++ pad4 d.year

/-- The first 10 characters of a midnight timestamp's `isoformat()`. -/
def isoD (d : Date) : String :=
  pad4 d.year ++ "-" ++ pad2 d.month ++ "-" ++ pad2 d.day

/-! ## Regex matcher framework

A matcher works on a state holding the character just before the current
position (needed for the `\b` word-boundary assertion) and the remaining
input.  A pattern maps a state to the list of possible (capture, state)
outcomes in Python's backtracking order; the head of the list is the match
Python's engine reports. -/

structure MSt where
  prev : Option Char
  rest : List Char
deriving Repr

def wordB : Option Char → Bool
  | none => false
  | some c => isWordChar c

/-- The `\b` assertion at the current position. -/
def atB (st : MSt) : Bool :=
  wordB st.prev != wordB (match st.rest with | [] => none | c :: _ => some c)

/-- Consume an exact literal. -/
def litM : List Char → MSt → Option MSt
  | [], st => some st
  | c :: cs, st =>
    match st.rest with
    | [] => none
    | x :: xs => if x = c then litM cs ⟨some x, xs⟩ else none

/-- All ways to consume leading whitespace (`\s*`), greedy-first. -/
def spaceAltsGo : Option Char → List Char → List MSt
  | prev, c :: cs =>
    if isSpaceChar c then spaceAltsGo (some c) cs ++ [⟨prev, c :: cs⟩]
    else [⟨prev, c :: cs⟩]
  | prev, [] => [⟨prev, []⟩]

def spaceAlts (st : MSt) : List MSt := spaceAltsGo st.prev st.rest

/-- Embeds `\s+`, greedy-first. -/
def spacesPlus (st : MSt) : List MSt :=
  match st.rest with
  | c :: cs => if isSpaceChar c then spaceAltsGo (some c) cs else []
  | [] => []

def digitVal (c : Char) : Nat := c.toNat - 48

/-- Embeds `(\d{1,2})`, greedy-first (two digits, then one). -/
def dig12 (st : MSt) : List (Nat × MSt) :=
  match st.rest with
  | c :: cs =>
    if c.isDigit then
      match cs with
      | d :: ds =>
        if d.isDigit then
          [(10 * digitVal c + digitVal d, ⟨some d, ds⟩), (digitVal c, ⟨some c, cs⟩)]
        else [(digitVal c, ⟨some c, cs⟩)]
      | [] => [(digitVal c, ⟨some c, cs⟩)]
    else []
  | [] => []

/-- Embeds `(\d+)`, greedy-first, accumulating the numeric value. -/
def digPlusGo (acc : Nat) (prev : Char) : List Char → List (Nat × MSt)
  | [] => [(acc, ⟨some prev, []⟩)]
  | c :: cs =>
    if c.isDigit then
      digPlusGo (10 * acc + digitVal c) c cs ++ [(acc, ⟨some prev, c :: cs⟩)]
    else [(acc, ⟨some prev, c :: cs⟩)]

def digPlus (st : MSt) : List (Nat × MSt) :=
  match st.rest with
  | c :: cs => if c.isDigit then digPlusGo (digitVal c) c cs else []
  | [] => []

/-- Embeds `(\w+)`, greedy-first, capturing the consumed word. -/
def wordPlusGo (acc : List Char) (prev : Char) : List Char → List (List Char × MSt)
  | [] => [(acc.reverse, ⟨some prev, []⟩)]
  | c :: cs =>
    if isWordChar c then
      wordPlusGo (c :: acc) c cs ++ [(acc.reverse, ⟨some prev, c :: cs⟩)]
    else [(acc.reverse, ⟨some prev, c :: cs⟩)]

def wordPlus (st : MSt) : List (List Char × MSt) :=
  match st.rest with
  | c :: cs => if isWordChar c then wordPlusGo [c] c cs else []
  | [] => []

/-- Embeds `re.search`: try the pattern at each position, leftmost match wins. -/
def searchGo {α : Type} (m : MSt → List (α × MSt)) : Option Char → List Char → Option α
  | prev, [] =>
    match m ⟨prev, []⟩ with
    | (a, _) :: _ => some a
    | [] => none
  | prev, c :: cs =>
    match m ⟨prev, c :: cs⟩ with
    | (a, _) :: _ => some a
    | [] => searchGo m (some c) cs

def searchTop {α : Type} (m : MSt → List (α × MSt)) (l : List Char) : Option α :=
  searchGo m none l

/-- Embeds `re.finditer`: non-overlapping scan, continuing after each match.  The
    fuel starts at the input length, which bounds the number of steps since
    every pattern below consumes at least one character. -/
def finditerGo {α : Type} (m : MSt → List (α × MSt)) :
    Nat → Option Char → List Char → List α
  | 0, _, _ => []
  | _ + 1, prev, [] =>
    match m ⟨prev, []⟩ with
    | (a, _) :: _ => [a]
    | [] => []
  | fuel + 1, prev, c :: cs =>
    match m ⟨prev, c :: cs⟩ with
    | (a, st) :: _ => a :: finditerGo m fuel st.prev st.rest
    | [] => finditerGo m fuel (some c) cs

def finditerTop {α : Type} (m : MSt → List (α × MSt)) (l : List Char) : List α :=
  finditerGo m l.length none l

/-! ## The concrete patterns of app.py -/

/-- Embeds `\b(\d{1,2})[/\-](\d{1,2})\b` (parse_numeric_dates). -/
def sepSlash (st : MSt) : Option MSt :=
  match st.rest with
  | c :: cs => if c = '/' ∨ c = '-' then some ⟨some c, cs⟩ else none
  | [] => none

def numPat (st : MSt) : List ((Nat × Nat) × MSt) :=
  if atB st then
    (dig12 st).flatMap (fun dst =>
      (sepSlash dst.2).toList.flatMap (fun st2 =>
        (dig12 st2).flatMap (fun mst =>
          if atB mst.2 then [((dst.1, mst.1), mst.2)] else [])))
  else []

/-- Embeds `(?:desde|a\s*partir\s*de)`. -/
def altDesde (st : MSt) : List MSt :=
  (litM (("desde").data) st).toList ++
    ((litM (("a").data) st).toList.flatMap (fun s1 =>
      (spaceAlts s1).flatMap (fun s2 =>
        (litM (("partir").data) s2).toList.flatMap (fun s3 =>
          (spaceAlts s3).flatMap (fun s4 =>
            (litM (("de").data) s4).toList)))))

/-- An optional alternation of literal suffixes (e.g. `(?:ro|do|er|vo|to)?`),
    alternatives first, empty last. -/
def ordAlts (sufs : List (List Char)) (st : MSt) : List MSt :=
  (sufs.flatMap (fun w => (litM w st).toList)) ++ [st]

/-- The common tail `\s+(\d{1,2})SUFS?\s+(?:de\s+)?(\w+)\b` of the
    desde/el patterns, capturing (day, month word). -/
def tailDateWord (sufs : List (List Char)) (st1 : MSt) :
    List ((Nat × List Char) × MSt) :=
  (spacesPlus st1).flatMap (fun s2 =>
    (dig12 s2).flatMap (fun dst =>
      (ordAlts sufs dst.2).flatMap (fun s3 =>
        (spacesPlus s3).flatMap (fun s4 =>
          (((litM (("de").data) s4).toList.flatMap spacesPlus) ++ [s4]).flatMap (fun s5 =>
            (wordPlus s5).flatMap (fun wst =>
              if atB wst.2 then [((dst.1, wst.1), wst.2)] else []))))))

def ordsDesde : List (List Char) :=
  [("ro").data, ("do").data, ("er").data, ("vo").data, ("to").data,
   ("st").data, ("nd").data, ("rd").data, ("th").data]

def ordsEl : List (List Char) :=
  [("ro").data, ("do").data, ("er").data, ("vo").data, ("to").data]

/-- Embeds `\b(?:desde|a\s*partir\s*de)(?:\s+el)?\s+(\d{1,2})(?:ro|do|er|vo|to|st|nd|rd|th)?\s+(?:de\s+)?(\w+)\b`. -/
def desdePat (st : MSt) : List ((Nat × List Char) × MSt) :=
  if atB st then
    (altDesde st).flatMap (fun s1 =>
      (((spacesPlus s1).flatMap (fun t => (litM (("el").data) t).toList)) ++ [s1]).flatMap
        (fun s2 => tailDateWord ordsDesde s2))
  else []

/-- Embeds `(?:el|disponible\s+el?)`. -/
def altEl (st : MSt) : List MSt :=
  (litM (("el").data) st).toList ++
    ((litM (("disponible").data) st).toList.flatMap (fun s1 =>
      (spacesPlus s1).flatMap (fun s2 =>
        (litM (("e").data) s2).toList.flatMap (fun s3 =>
          (litM (("l").data) s3).toList ++ [s3]))))

/-- Embeds `\b(?:el|disponible\s+el?)\s+(\d{1,2})(?:ro|do|er|vo|to)?\s+(?:de\s+)?(\w+)\b`. -/
def elPat (st : MSt) : List ((Nat × List Char) × MSt) :=
  if atB st then (altEl st).flatMap (fun s1 => tailDateWord ordsEl s1) else []

/-- Embeds `\b(?:del|desde)\s+(\d{1,2})\s+(?:al|hasta)\s+(?:el\s+)?(\d{1,2})\s*(?:de\s+)?(\w+)?\b`,
    capturing (day1, day2, optional month word). -/
def delAlPat (st : MSt) : List ((Nat × Nat × Option (List Char)) × MSt) :=
  if atB st then
    ((litM (("del").data) st).toList ++ (litM (("desde").data) st).toList).flatMap (fun s1 =>
      (spacesPlus s1).flatMap (fun s2 =>
        (dig12 s2).flatMap (fun d1 =>
          (spacesPlus d1.2).flatMap (fun s3 =>
            ((litM (("al").data) s3).toList ++ (litM (("hasta").data) s3).toList).flatMap (fun s4 =>
              (spacesPlus s4).flatMap (fun s5 =>
                (((litM (("el").data) s5).toList.flatMap spacesPlus) ++ [s5]).flatMap (fun s6 =>
                  (dig12 s6).flatMap (fun d2 =>
                    (spaceAlts d2.2).flatMap (fun s7 =>
                      (((litM (("de").data) s7).toList.flatMap spacesPlus) ++ [s7]).flatMap (fun s8 =>
                        ((wordPlus s8).map (fun wst => (some wst.1, wst.2)) ++
                          [((none : Option (List Char)), s8)]).flatMap (fun mw =>
                          if atB mw.2 then [((d1.1, d2.1, mw.1), mw.2)] else [])))))))))))
  else []

/-- Embeds `\bir\s+del\s+(\d{1,2})\s+(?:de\s+)?(\w+)\s+al\s+(\d{1,2})\b`,
    capturing (day1, month word, day2). -/
def irDelPat (st : MSt) : List ((Nat × List Char × Nat) × MSt) :=
  if atB st then
    (litM (("ir").data) st).toList.flatMap (fun s1 =>
      (spacesPlus s1).flatMap (fun s2 =>
        (litM (("del").data) s2).toList.flatMap (fun s3 =>
          (spacesPlus s3).flatMap (fun s4 =>
            (dig12 s4).flatMap (fun d1 =>
              (spacesPlus d1.2).flatMap (fun s5 =>
                (((litM (("de").data) s5).toList.flatMap spacesPlus) ++ [s5]).flatMap (fun s6 =>
                  (wordPlus s6).flatMap (fun wst =>
                    (spacesPlus wst.2).flatMap (fun s7 =>
                      (litM (("al").data) s7).toList.flatMap (fun s8 =>
                        (spacesPlus s8).flatMap (fun s9 =>
                          (dig12 s9).flatMap (fun d2 =>
                            if atB d2.2 then [((d1.1, wst.1, d2.1), d2.2)]
                            else []))))))))))))
  else []

/-- Embeds `\b(?:primer|primera)\s+semana\s+(?:de\s+)?(\w+)\b`, capturing the month word. -/
def semanaPat (st : MSt) : List ((List Char) × MSt) :=
  if atB st then
    ((litM (("primer").data) st).toList ++ (litM (("primera").data) st).toList).flatMap (fun s1 =>
      (spacesPlus s1).flatMap (fun s2 =>
        (litM (("semana").data) s2).toList.flatMap (fun s3 =>
          (spacesPlus s3).flatMap (fun s4 =>
            (((litM (("de").data) s4).toList.flatMap spacesPlus) ++ [s4]).flatMap (fun s5 =>
              (wordPlus s5).flatMap (fun wst =>
                if atB wst.2 then [(wst.1, wst.2)] else []))))))
  else []

/-- Embeds `(\d+)\s*noche(s)?`, capturing the night count; the trailing optional
    `(s)?` constrains nothing so it is not represented. -/
def nochePat (st : MSt) : List (Nat × MSt) :=
  (digPlus st).flatMap (fun dst =>
    (spaceAlts dst.2).flatMap (fun s2 =>
      (litM (("noche").data) s2).toList.flatMap (fun s3 => [(dst.1, s3)])))

/-- Embeds `\b(?:el\s+)?fin(?:de)?(?:\s+de\s+semana)?(?:\s+que\s+viene|\s+proximo)?\b`. -/
def findePat (st : MSt) : List (Unit × MSt) :=
  if atB st then
    ((((litM (("el").data) st).toList.flatMap spacesPlus) ++ [st]).flatMap (fun s1 =>
      (litM (("fin").data) s1).toList.flatMap (fun s2 =>
        ((litM (("de").data) s2).toList ++ [s2]).flatMap (fun s3 =>
          (((spacesPlus s3).flatMap (fun t1 =>
              (litM (("de").data) t1).toList.flatMap (fun t2 =>
                (spacesPlus t2).flatMap (fun t3 =>
                  (litM (("semana").data) t3).toList)))) ++ [s3]).flatMap (fun s4 =>
            (((spacesPlus s4).flatMap (fun u1 =>
                (litM (("que").data) u1).toList.flatMap (fun u2 =>
                  (spacesPlus u2).flatMap (fun u3 =>
                    (litM (("viene").data) u3).toList)))) ++
              ((spacesPlus s4).flatMap (fun v1 =>
                (litM (("proximo").data) v1).toList)) ++ [s4]).flatMap (fun s5 =>
              if atB s5 then [((), s5)] else []))))))
  else []

/-- Embeds `\b(?:la\s+)?semana\s+que\s+viene\b`. -/
def semanaQVPat (st : MSt) : List (Unit × MSt) :=
  if atB st then
    ((((litM (("la").data) st).toList.flatMap spacesPlus) ++ [st]).flatMap (fun s1 =>
      (litM (("semana").data) s1).toList.flatMap (fun s2 =>
        (spacesPlus s2).flatMap (fun s3 =>
          (litM (("que").data) s3).toList.flatMap (fun s4 =>
            (spacesPlus s4).flatMap (fun s5 =>
              (litM (("viene").data) s5).toList.flatMap (fun s6 =>
                if atB s6 then [((), s6)] else [])))))))
  else []

/-- Embeds `\bNAME\s+que\s+viene\b` for a weekday name. -/
def wkdayPat (nm : List Char) (st : MSt) : List (Unit × MSt) :=
  if atB st then
    (litM nm st).toList.flatMap (fun s1 =>
      (spacesPlus s1).flatMap (fun s2 =>
        (litM (("que").data) s2).toList.flatMap (fun s3 =>
          (spacesPlus s3).flatMap (fun s4 =>
            (litM (("viene").data) s4).toList.flatMap (fun s5 =>
              if atB s5 then [((), s5)] else [])))))
  else []

/-! ## UltraRobustDateParser -/

def MONTH_NAMES : List (String × Nat) :=
  [("enero",1),("febrero",2),("marzo",3),("abril",4),
   ("mayo",5),("junio",6),("julio",7),("agosto",8),
   ("septiembre",9),("setiembre",9),("octubre",10),
   ("noviembre",11),("diciembre",12),
   ("ene",1),("feb",2),("mar",3),("abr",4),("may",5),("jun",6),
   ("jul",7),("ago",8),("sep",9),("oct",10),("nov",11),("dic",12)]

def monthLookup (w : List Char) : Option Nat :=
  (MONTH_NAMES.find? (fun p => p.1.data == w)).map (fun p => p.2)

/-- Embeds `WEEKDAY_NAMES` in dict insertion order (Python 3.7+ iteration order). -/
def WEEKDAY_NAMES : List (String × Nat) :=
  [("lunes",0),("martes",1),("miercoles",2),("jueves",3),
   ("viernes",4),("sabado",5),("domingo",6)]

/-- Embeds `UltraRobustDateParser.infer_year_and_month`. -/
def infer_year_and_month (day : Nat) (month : Option Nat) (today : Date) :
    Nat × Nat :=
  let m := month.getD today.month
  let y :=
    if m < today.month then today.year + 1
    else if m = today.month ∧ day < today.day then today.year + 1
    else today.year
  (y, m)

/-- The loop body of `parse_numeric_dates`: validate a (day, month) match,
    infer the year, build the date; `none` models both the range guard
    failing and the caught `ValueError`. -/
def numericCand (today : Date) (dm : Nat × Nat) : Option Date :=
  if 1 ≤ dm.1 ∧ dm.1 ≤ 31 ∧ 1 ≤ dm.2 ∧ dm.2 ≤ 12 then
    let ym := infer_year_and_month dm.1 (some dm.2) today
    mkDate ym.1 ym.2 dm.1
  else none

/-- Embeds `UltraRobustDateParser.parse_numeric_dates`. -/
def parse_numeric_dates (text : List Char) (today : Date) :
    List (Date × Date) :=
  let t := normalizeChars text
  let found : List Date := (finditerTop numPat t).filterMap (numericCand today)
  match found with
  | [] => []
  | [d] => [(d, addDays d 1)]
  | d :: ds =>
    let st := sortDates (d :: ds)
    [(st.headD ⟨1, 1, 1⟩, st.getLastD ⟨1, 1, 1⟩)]

/-- Embeds `UltraRobustDateParser.parse_explicit_dates`: the five sub-patterns in
    source order; an unrecognized month word or an invalid calendar date
    (Python `ValueError`, caught with `pass`) falls through to the next
    sub-pattern. -/
def parse_explicit_dates (text : List Char) (today : Date) :
    List (Date × Date) :=
  let t := normalizeChars text
  let r1 : List (Date × Date) :=
    match searchTop desdePat t with
    | some dw =>
      match monthLookup dw.2 with
      | some m0 =>
        let ym := infer_year_and_month dw.1 (some m0) today
        match mkDate ym.1 ym.2 dw.1 with
        | some checkin =>
          let nights := (searchTop nochePat t).getD 1
          [(checkin, addDays checkin nights)]
        | none => []
      | none => []
    | none => []
  if r1 ≠ [] then r1 else
  let r2 : List (Date × Date) :=
    match searchTop elPat t with
    | some dw =>
      match monthLookup dw.2 with
      | some m0 =>
        let ym := infer_year_and_month dw.1 (some m0) today
        match mkDate ym.1 ym.2 dw.1 with
        | some checkin => [(checkin, addDays checkin 1)]
        | none => []
      | none => []
    | none => []
  if r2 ≠ [] then r2 else
  let r3 : List (Date × Date) :=
    match searchTop delAlPat t with
    | some cap =>
      let month : Option Nat :=
        match cap.2.2 with
        | some mw => monthLookup mw
        | none => some today.month
      let ym := infer_year_and_month cap.1 month today
      match mkDate ym.1 ym.2 cap.1, mkDate ym.1 ym.2 cap.2.1 with
      | some checkin, some checkout =>
        if DLt checkin checkout then [(checkin, checkout)] else []
      | _, _ => []
    | none => []
  if r3 ≠ [] then r3 else
  let r4 : List (Date × Date) :=
    match searchTop irDelPat t with
    | some cap =>
      match monthLookup cap.2.1 with
      | some m0 =>
        let ym := infer_year_and_month cap.1 (some m0) today
        match mkDate ym.1 ym.2 cap.1, mkDate ym.1 ym.2 cap.2.2 with
        | some checkin, some checkout =>
          if DLt checkin checkout then [(checkin, checkout)] else []
        | _, _ => []
      | none => []
    | none => []
  if r4 ≠ [] then r4 else
  match searchTop semanaPat t with
  | some mw =>
    match monthLookup mw with
    | some m0 =>
      let y := if today.month ≤ m0 then today.year else today.year + 1
      match mkDate y m0 1, mkDate y m0 7 with
      | some checkin, some checkout => [(checkin, checkout)]
      | _, _ => []
    | none => []
  | none => []

/-- Python `(a - b) % 7` on possibly negative `a - b` (the result is always
    in 0..6, like Python's `%` on a positive modulus). -/
def pyMod7 (a : Int) : Nat := (a % 7).toNat

/-- The `for day_name, weekday in cls.WEEKDAY_NAMES.items()` loop of
    `parse_relative_dates`: first matching weekday name wins. -/
def weekdayLoop (t : List Char) (today : Date) :
    List (String × Nat) → List (Date × Date)
  | [] => []
  | (nm, wd) :: rest =>
    if (searchTop (wkdayPat nm.data) t).isSome then
      let da0 := pyMod7 ((wd : Int) - (weekday today : Int))
      let da := if da0 = 0 then 7 else da0
      let checkin := addDays today da
      [(checkin, addDays checkin 1)]
    else weekdayLoop t today rest

/-- Embeds `UltraRobustDateParser.parse_relative_dates`. -/
def parse_relative_dates (text : List Char) (today : Date) :
    List (Date × Date) :=
  let t := normalizeChars text
  if (searchTop findePat t).isSome then
    let da0 := pyMod7 (4 - (weekday today : Int))
    let da := if da0 = 0 then 7 else da0
    let checkin := addDays today da
    [(checkin, addDays checkin 2)]
  else if (searchTop semanaQVPat t).isSome then
    let dm0 := pyMod7 (7 - (weekday today : Int))
    let dm := if dm0 = 0 then 7 else dm0
    let checkin := addDays today dm
    [(checkin, addDays checkin 2)]
  else
    weekdayLoop t today WEEKDAY_NAMES

/-- Embeds `UltraRobustDateParser.parse_all`: first non-empty family wins. -/
def parse_all (text : List Char) (today : Date) : List (Date × Date) :=
  let r1 := parse_explicit_dates text today
  if r1 ≠ [] then r1 else
  let r2 := parse_numeric_dates text today
  if r2 ≠ [] then r2 else
  parse_relative_dates text today

/-! ## classify_intents_multi -/

/-- Embeds `\bW\b`. -/
def wordPat (w : List Char) (st : MSt) : List (Unit × MSt) :=
  if atB st then
    (litM w st).toList.flatMap (fun s1 => if atB s1 then [((), s1)] else [])
  else []

/-- Embeds `\bSTEM(?:A|B|...)\b` (required suffix alternation). -/
def stemAltPat (stem : List Char) (sufs : List (List Char)) (st : MSt) :
    List (Unit × MSt) :=
  if atB st then
    (litM stem st).toList.flatMap (fun s1 =>
      (sufs.flatMap (fun sf => (litM sf s1).toList)).flatMap (fun s2 =>
        if atB s2 then [((), s2)] else []))
  else []

/-- Embeds `\bSTEM(?:A|B|...)?\b` (optional suffix alternation, e.g. `(s)?`). -/
def stemOptAltPat (stem : List Char) (sufs : List (List Char)) (st : MSt) :
    List (Unit × MSt) :=
  if atB st then
    (litM stem st).toList.flatMap (fun s1 =>
      ((sufs.flatMap (fun sf => (litM sf s1).toList)) ++ [s1]).flatMap (fun s2 =>
        if atB s2 then [((), s2)] else []))
  else []

/-- Embeds `\bW1\s+W2\b`. -/
def twoWordPat (w1 w2 : List Char) (st : MSt) : List (Unit × MSt) :=
  if atB st then
    (litM w1 st).toList.flatMap (fun s1 =>
      (spacesPlus s1).flatMap (fun s2 =>
        (litM w2 s2).toList.flatMap (fun s3 =>
          if atB s3 then [((), s3)] else [])))
  else []

/-- Embeds `\bW1\s*W2\b` (e.g. `wi\s*fi`, `check\s*in`). -/
def twoWordStarPat (w1 w2 : List Char) (st : MSt) : List (Unit × MSt) :=
  if atB st then
    (litM w1 st).toList.flatMap (fun s1 =>
      (spaceAlts s1).flatMap (fun s2 =>
        (litM w2 s2).toList.flatMap (fun s3 =>
          if atB s3 then [((), s3)] else [])))
  else []

/-- Embeds `\bW1\s+(?:A|B|...)\b` (e.g. `puedo\s+(?:reservar|ir)`). -/
def wordThenAltPat (w1 : List Char) (alts : List (List Char)) (st : MSt) :
    List (Unit × MSt) :=
  if atB st then
    (litM w1 st).toList.flatMap (fun s1 =>
      (spacesPlus s1).flatMap (fun s2 =>
        (alts.flatMap (fun a => (litM a s2).toList)).flatMap (fun s3 =>
          if atB s3 then [((), s3)] else [])))
  else []

/-- Embeds `\bair(e)?\s*acondicionado\b`. -/
def airePat (st : MSt) : List (Unit × MSt) :=
  if atB st then
    (litM (("air").data) st).toList.flatMap (fun s1 =>
      ((litM (("e").data) s1).toList ++ [s1]).flatMap (fun s2 =>
        (spaceAlts s2).flatMap (fun s3 =>
          (litM (("acondicionado").data) s3).toList.flatMap (fun s4 =>
            if atB s4 then [((), s4)] else []))))
  else []

def hasPat (p : MSt → List (Unit × MSt)) (t : List Char) : Bool :=
  (searchTop p t).isSome

def hasW (w : String) (t : List Char) : Bool := hasPat (wordPat w.data) t

def hasWS (w : String) (t : List Char) : Bool :=
  hasPat (stemOptAltPat w.data [("s").data]) t

/-- The `amenities_patterns` list (any match). -/
def amenAny (t : List Char) : Bool :=
  hasW ("gym") t || hasW ("gimnasio") t || hasW ("wifi") t ||
  hasPat (twoWordStarPat (("wi").data) (("fi").data)) t ||
  hasWS ("toalla") t || hasWS ("sabana") t || hasW ("cocina") t ||
  hasW ("pileta") t || hasW ("piscina") t || hasPat airePat t ||
  hasW ("calefaccion") t || hasW ("estacionamiento") t || hasW ("garage") t ||
  hasW ("amenities") t || hasW ("servicios") t || hasW ("equipamiento") t

/-- The `availability_patterns` list (any match). -/
def availAny (t : List Char) : Bool :=
  hasPat (stemAltPat (("disponibl").data) [("e").data, ("idad").data]) t ||
  hasPat (stemOptAltPat (("reserv").data)
    [("ar").data, ("a").data, ("as").data]) t ||
  hasPat (twoWordPat (("hay").data) (("lugar").data)) t ||
  hasW ("libre") t ||
  hasPat (wordThenAltPat (("puedo").data)
    [("reservar").data, ("ir").data]) t ||
  hasPat (wordThenAltPat (("esta").data)
    [("disponible").data, ("libre").data]) t

/-- The `pricing_patterns` list (any match). -/
def priceAny (t : List Char) : Bool :=
  hasWS ("precio") t || hasWS ("tarifa") t || hasWS ("costo") t ||
  hasPat (wordThenAltPat (("cuanto").data)
    [("cuesta").data, ("sale").data, ("es").data]) t ||
  hasW ("valor") t

def checkinAny (t : List Char) : Bool :=
  hasPat (twoWordStarPat (("check").data) (("in").data)) t ||
  hasW ("ingreso") t || hasW ("llegada") t

def checkoutAny (t : List Char) : Bool :=
  hasPat (twoWordStarPat (("check").data) (("out").data)) t ||
  hasW ("salida") t || hasW ("egreso") t

def recomAny (t : List Char) : Bool :=
  hasPat (stemOptAltPat (("recomendacion").data) [("es").data]) t ||
  hasPat (twoWordPat (("donde").data) (("comer").data)) t ||
  hasPat (twoWordPat (("que").data) (("hacer").data)) t

def policyAny (t : List Char) : Bool :=
  hasW ("cancelacion") t || hasWS ("norma") t || hasWS ("politica") t

/-- Embeds `classify_intents_multi`.  Python's `set` of labels is modelled as the
    list of distinct labels in insertion order; only membership matters. -/
def classify_intents_multi (text : List Char) (has_dates : Bool) :
    List String :=
  let t := normalizeChars text
  let l1 := if amenAny t then [("amenities" : String)] else []
  let l2 :=
    if has_dates then
      (if availAny t then l1 ++ [("availability" : String)]
       else if l1.isEmpty then l1 ++ [("availability" : String)]
       else l1)
    else l1
  let l3 :=
    if ¬has_dates then
      (if priceAny t then l2 ++ [("pricing" : String)] else l2)
    else l2
  let l4 := if checkinAny t then l3 ++ [("checkin" : String)] else l3
  let l5 := if checkoutAny t then l4 ++ [("checkout" : String)] else l4
  let l6 := if recomAny t then l5 ++ [("recommendations" : String)] else l5
  let l7 := if policyAny t then l6 ++ [("policy" : String)] else l6
  if l7.isEmpty then [("other" : String)] else l7

/-! ## ical_utils: busy-interval reconciliation -/

/-- A recurrence-expanded calendar event (timestamps at day granularity,
    see the header). -/
structure BEvent where
  s : Date
  e : Date
  name : String
deriving DecidableEq, Repr

/-- A coalesced busy interval; the contributing labels are kept as a list
    (the final `" | ".join(set(names))` renders them in an order CPython
    leaves unspecified, so the join is not modelled). -/
structure MInterval where
  s : Date
  e : Date
  names : List String
deriving DecidableEq, Repr

def maxD (a b : Date) : Date := if DLe a b then b else a

/-- Stable insertion for `busy.sort(key=lambda x: x[0])`: an element
    inserted into the sorted list of the elements after it goes before
    those with a strictly larger start, preserving the original order of
    equal starts. -/
def insertE (x : BEvent) : List BEvent → List BEvent
  | [] => [x]
  | y :: ys => if DLe x.s y.s then x :: y :: ys else y :: insertE x ys

def sortByStart : List BEvent → List BEvent
  | [] => []
  | x :: xs => insertE x (sortByStart xs)

/-- The sweep of `expand_busy_intervals`: merge an event into the open
    interval when its start is `<=` the interval's end. -/
def mergeGo (cur : MInterval) : List BEvent → List MInterval
  | [] => [cur]
  | b :: bs =>
    if DLe b.s cur.e then
      mergeGo ⟨cur.s, maxD cur.e b.e, cur.names ++ [b.name]⟩ bs
    else cur :: mergeGo ⟨b.s, b.e, [b.name]⟩ bs

/-- The sort-and-merge step of `expand_busy_intervals` (lines 148-169). -/
def mergeBusy (l : List BEvent) : List MInterval :=
  match sortByStart l with
  | [] => []
  | b :: bs => mergeGo ⟨b.s, b.e, [b.name]⟩ bs

/-- The conflict filter of `is_available` (lines 225-235): a merged busy
    interval conflicts with the half-open query `[qs, qe)` iff
    `qs < b.e ∧ b.s < qe`. -/
def overlapsQuery (busy : List MInterval) (qs qe : Date) : List MInterval :=
  busy.filter (fun b => decide (DLt qs b.e) && decide (DLt b.s qe))

/-- Embeds `is_available`'s returned dict (the informational `query` field is
    omitted; `error` is present exactly on the fetch-failure path). -/
structure IcalResult where
  available : Option Bool
  conflicts : List MInterval
  error : Option String
  total_nights : Int
deriving DecidableEq, Repr

/-- Embeds `ical_utils.is_available` with the network fetch (plus recurrence
    expansion, an external collaborator) passed in as `fetchRes`.
    `.error` models the `ValueError` raised on a malformed range; a fetch
    failure is caught internally and yields `available = none` plus the
    diagnostic.  `buffer_hours` is its default 0. -/
def is_available (fetchRes : Except String (List BEvent))
    (start_date end_date : Date) : Except String IcalResult :=
  if DLe end_date start_date then
    .error ("end_date debe ser posterior a start_date")
  else
    match fetchRes with
    | .error e =>
      .ok { available := none, conflicts := [], error := some e,
            total_nights := nightsBetween start_date end_date }
    | .ok events =>
      let busy := mergeBusy events
      let conflicts := overlapsQuery busy start_date end_date
      .ok { available := some conflicts.isEmpty, conflicts := conflicts,
            error := none,
            total_nights := nightsBetween start_date end_date }

/-! ## app.check_availability_robust -/

structure CheckResult where
  success : Bool
  message : String
  checkin : Option Date
  checkout : Option Date
  available : Option Bool
deriving DecidableEq, Repr

/-- Embeds `app.check_availability_robust`.  `property_id = none` or `some ""`
    models a falsy property id. -/
def check_availability_robust (email_text : List Char)
    (property_id : Option String) (ical_url : String) (today : Date)
    (fetchRes : Except String (List BEvent)) : CheckResult :=
  let noProp : CheckResult :=
    ⟨false, ("Necesito saber a que propiedad te referis."), none, none, none⟩
  match property_id with
  | none => noProp
  | some pid =>
    if pid = ("") then noProp
    else if ical_url = ("") then
      ⟨false, ("No puedo verificar disponibilidad de ") ++ pid ++ ("."),
        none, none, none⟩
    else
      match parse_all email_text today with
      | [] => ⟨false, ("Necesito fechas de check-in y check-out."),
               none, none, none⟩
      | (checkin, checkout) :: _ =>
        if DLe checkout checkin then
          ⟨false, ("Check-out debe ser posterior a check-in."),
            some checkin, some checkout, none⟩
        else if DLt checkin today then
          ⟨false, ("La fecha ") ++ fmtDMY checkin ++ (" ya paso."),
            some checkin, some checkout, none⟩
        else
          match is_available fetchRes checkin checkout with
          | .error e =>
            ⟨false, ("Error: ") ++ e, some checkin, some checkout, none⟩
          | .ok r =>
            let nights := nightsBetween checkin checkout
            match r.available with
            | some true =>
              ⟨true,
                ("DISPONIBLE del ") ++ fmtDMY checkin ++ (" al ") ++
                  fmtDMY checkout ++ (" (") ++ toString nights ++
                  (" noche") ++ (if 1 < nights then ("s") else ("")) ++
                  (")."),
                some checkin, some checkout, some true⟩
            | av =>
              -- Python's `if ical_result["available"]: ... else: ...`
              -- sends both False and None into this branch.
              match r.conflicts with
              | c :: _ =>
                ⟨true,
                  ("NO DISPONIBLE. Hay una reserva del ") ++ isoD c.s ++
                    (" al ") ++ isoD c.e ++ ("."),
                  some checkin, some checkout, av⟩
              | [] =>
                ⟨true, ("NO DISPONIBLE en esas fechas."),
                  some checkin, some checkout, av⟩

/-! ## generator.py: consistency validation and LLM glue -/

/-- The accent replacements `_validate_multi_intent_response` applies to the
    lower-cased draft (only the five vowels; no enye there). -/
def draftAccentPairs : List (Char × Char) :=
  [('á','a'),('é','e'),('í','i'),('ó','o'),('ú','u')]

def draftAccent (c : Char) : Char :=
  match draftAccentPairs.find? (fun p => p.1 == c) with
  | some p => p.2
  | none => c

/-- The validator's normalization of the draft: `draft.lower()` then the
    five vowel replacements. -/
def draftNorm (l : List Char) : List Char :=
  (l.map pyLower).map draftAccent

/-- Embeds `needle in hay` for Python strings (contiguous substring). -/
def listPre : List Char → List Char → Bool
  | [], _ => true
  | _ :: _, [] => false
  | a :: as, b :: bs => a = b && listPre as bs

def subIn (needle hay : List Char) : Bool :=
  match hay with
  | [] => needle.isEmpty
  | _ :: t => listPre needle hay || subIn needle t

/-- Embeds `f.replace('[VERIFICADO_ICAL]', '')`: remove every occurrence of the
    marker, scanning left to right. -/
def removeMarkGo (pat : List Char) : Nat → List Char → List Char
  | 0, l => l
  | _ + 1, [] => []
  | fuel + 1, c :: t =>
    if listPre pat (c :: t) ∧ pat ≠ [] then
      removeMarkGo pat fuel (List.drop pat.length (c :: t))
    else c :: removeMarkGo pat fuel t

def removeMark (pat l : List Char) : List Char := removeMarkGo pat l.length l

def negative_indicators : List String :=
  [("no esta disponible"), ("no disponible"), ("no hay disponibilidad"),
   ("ocupadas"), ("ocupada"), ("reservadas"), ("reservada"), ("lamento")]

def positive_indicators : List String :=
  [("disponible"), ("libre"), ("confirmo"), ("confirmamos"),
   ("esta libre"), ("hay lugar")]

def amenities_words : List String :=
  [("wifi"), ("gym"), ("gimnasio"), ("pileta"), ("piscina"), ("toallas"),
   ("cocina"), ("calefacci"), ("aire")]

def pricing_words : List String :=
  [("precio"), ("tarifa"), ("costo"), ("necesit"), ("fechas"), ("cotiz")]

/-- The issue-collection phase of `_validate_multi_intent_response` (one
    `Unit` per appended issue string). -/
def validationIssues (draft : String) (extra_facts intents : List String) :
    List Unit :=
  let dl := draftNorm draft.data
  let issues1 : List Unit :=
    if ¬extra_facts.isEmpty ∧ ("availability") ∈ intents then
      let has_available_fact := extra_facts.any (fun f =>
        subIn (("DISPONIBLE del").data) f.data &&
          !subIn (("NO DISPONIBLE").data) f.data)
      let has_not_available_fact := extra_facts.any (fun f =>
        subIn (("NO DISPONIBLE").data) f.data)
      let draft_says_available :=
        positive_indicators.any (fun p => subIn p.data dl)
      let draft_says_not_available :=
        negative_indicators.any (fun n => subIn n.data dl)
      (if has_available_fact ∧ draft_says_not_available ∧
          ¬draft_says_available then [()] else []) ++
        (if has_not_available_fact ∧ draft_says_available ∧
            ¬draft_says_not_available then [()] else [])
    else []
  let issues2 : List Unit :=
    if ("amenities") ∈ intents ∧
        ¬amenities_words.any (fun w => subIn w.data dl) then [()] else []
  let issues3 : List Unit :=
    if ("pricing") ∈ intents ∧
        ¬pricing_words.any (fun w => subIn w.data dl) then [()] else []
  issues1 ++ issues2 ++ issues3

/-- The corrected-draft paragraphs of `_validate_multi_intent_response`. -/
def validationParts (extra_facts intents : List String) : List String :=
  let part1 : List String :=
    if ("availability") ∈ intents ∧ ¬extra_facts.isEmpty then
      match extra_facts.filter (fun f =>
          subIn (("DISPONIBLE").data) (f.data.map pyUpper)) with
      | [] => []
      | f :: _ =>
        let fact_clean :=
          stripWs (removeMark (("[VERIFICADO_ICAL]").data) f.data)
        [("Respecto a la disponibilidad: ") ++ String.mk fact_clean]
    else []
  let part2 : List String :=
    if ("amenities") ∈ intents then
      [("En cuanto a las comodidades del lugar, necesito verificar esa informacion especifica. Te respondo en breve.")]
    else []
  let part3 : List String :=
    if ("pricing") ∈ intents then
      [("Para darte un precio exacto necesito confirmar fechas y cantidad de huespedes. Me pasas esos datos?")]
    else []
  part1 ++ part2 ++ part3

/-- Embeds `generator._validate_multi_intent_response`. -/
def validate_multi_intent (draft : String) (extra_facts : List String)
    (intents : List String) : Bool × Option String :=
  if draft.data.isEmpty ∨ intents.isEmpty then (true, none)
  else if (validationIssues draft extra_facts intents).isEmpty then
    (true, none)
  else
    (false, some (String.intercalate ("\n\n")
      (validationParts extra_facts intents) ++
      ("\n\nSaludos,\nEquipo de Atencion")))

/-- The structured JSON reply of the LLM collaborator (`_call_ollama`'s
    parsed output after the `or`-defaults of generate_with_llm). -/
structure RawOut where
  intent : String
  dates : List String
  draft : String
  citations : List String
  language : String
deriving Repr

structure GenResult where
  intent : String
  dates : List String
  draft : String
  citations : List String
  language : String
  validation_passed : Bool
deriving Repr

def countDashes (s : String) : Nat :=
  (s.data.filter (fun c => c = '-')).length

/-- The draft selection of `generate_with_llm`: override with the corrected
    draft when validation failed and the correction is non-empty, then fall
    back to the signature-bearing default when the draft strips to empty. -/
def finalDraft (draft0 : String) (v : Bool × Option String)
    (signature : String) : String :=
  let draft1 :=
    match v.2 with
    | some c => if ¬v.1 ∧ c ≠ ("") then c else draft0
    | none => draft0
  if (stripWs draft1.data).isEmpty then
    ("Gracias por tu consulta. Estamos revisando tu mensaje y te respondemos a la brevedad.\n\nSaludos,\n") ++ signature
  else draft1

/-- Embeds `generator.generate_with_llm` after the Ollama call (prompt assembly
    feeds only the collaborator and is not modelled): field extraction,
    consistency validation with draft override, date filtering, and the
    empty-draft fallback that uses the caller's signature. -/
def generate_with_llm (raw : RawOut) (extra_facts : List String)
    (intents : List String) (signature : String) : GenResult :=
  let intent :=
    String.mk (stripWs ((if raw.intent = ("") then ("other")
      else raw.intent).data.map pyLower))
  let language :=
    String.mk (stripWs ((if raw.language = ("") then ("es")
      else raw.language).data.map pyLower))
  let draft0 := raw.draft
  let v := validate_multi_intent draft0 extra_facts intents
  let citations1 :=
    match v.2 with
    | some c =>
      if ¬v.1 ∧ c ≠ ("") then
        ("Respuesta corregida por inconsistencias detectadas") :: raw.citations
      else raw.citations
    | none => raw.citations
  let valid_dates := raw.dates.filter (fun d =>
    d.length = 10 ∧ countDashes d = 2)
  { intent := intent, dates := valid_dates,
    draft := finalDraft draft0 v signature,
    citations := citations1.take 6, language := language,
    validation_passed := v.1 }

/-- Modelled from the spec: "inferred year = next occurrence of that
    month/day on/after `today`" — the next calendar date with the given
    month and day that is on or after the reference date. -/
def specNextOccurrence (m d : Nat) (today : Date) : Date :=
  if DLe today ⟨today.year, m, d⟩ then ⟨today.year, m, d⟩
  else ⟨today.year + 1, m, d⟩

/-- Output invariant of whitespace collapsing: any whitespace character is a
    blank, and no two consecutive blanks occur. -/
def NoRuns : List Char → Prop
  | [] => True
  | [c] => isSpaceChar c = true → c = ' '
  | c :: d :: r => (isSpaceChar c = true → c = ' ') ∧ ¬(c = ' ' ∧ d = ' ') ∧
      NoRuns (d :: r)

def HeadNonSpace : List Char → Prop
  | [] => True
  | c :: _ => isSpaceChar c = false

/-! ## Order lemmas on dates -/

theorem DLe_def (a b : Date) :
    DLe a b ↔ a.year < b.year ∨ (a.year = b.year ∧
      (a.month < b.month ∨ (a.month = b.month ∧ a.day ≤ b.day))) := by
  cases a; cases b
  unfold DLe DLt
  simp only [Date.mk.injEq]
  omega

theorem DLt_def (a b : Date) :
    DLt a b ↔ a.year < b.year ∨ (a.year = b.year ∧
      (a.month < b.month ∨ (a.month = b.month ∧ a.day < b.day))) := by
  cases a; cases b
  unfold DLt
  simp only

theorem DLe_refl (a : Date) : DLe a a := by
  rw [DLe_def]; omega

theorem DLe_trans {a b c : Date} (h1 : DLe a b) (h2 : DLe b c) : DLe a c := by
  rw [DLe_def] at *; omega

theorem DLt_le {a b : Date} (h : DLt a b) : DLe a b := Or.inl h

theorem not_DLe_of_DLt {a b : Date} (h : DLt a b) : ¬ DLe b a := by
  rw [DLt_def] at h; rw [DLe_def]; omega

theorem DLe_of_not_DLe {a b : Date} (h : ¬ DLe a b) : DLe b a := by
  rw [DLe_def] at *; omega

theorem DLt_nextDay (d : Date) : DLt d (nextDay d) := by
  unfold nextDay
  split_ifs <;> (rw [DLt_def]; dsimp only; omega)

theorem DLe_addDays (d : Date) (n : Nat) : DLe d (addDays d n) := by
  induction n with
  | zero => exact DLe_refl d
  | succ k ih => exact DLe_trans ih (DLt_le (DLt_nextDay (addDays d k)))

theorem chain_insertD (x : Date) (l : List Date)
    (h : List.Chain' DLe l) : List.Chain' DLe (insertD x l) := by
  induction l with
  | nil => simp [insertD]
  | cons y ys ih =>
    rw [insertD]
    split_ifs with hxy
    · exact List.chain'_cons.mpr ⟨hxy, h⟩
    · have hyx : DLe y x := DLe_of_not_DLe hxy
      have ihys := ih h.tail
      cases ys with
      | nil =>
        simp only [insertD]
        exact List.chain'_cons.mpr ⟨hyx, List.chain'_singleton x⟩
      | cons z zs =>
        by_cases hxz : DLe x z
        · rw [insertD, if_pos hxz]
          rw [insertD, if_pos hxz] at ihys
          exact List.chain'_cons.mpr ⟨hyx, ihys⟩
        · rw [insertD, if_neg hxz]
          rw [insertD, if_neg hxz] at ihys
          exact List.chain'_cons.mpr ⟨(List.chain'_cons.mp h).1, ihys⟩

theorem chain_sortDates (l : List Date) : List.Chain' DLe (sortDates l) := by
  induction l with
  | nil => simp [sortDates]
  | cons x xs ih => exact chain_insertD x (sortDates xs) ih

/-! ## Lemmas for normalization idempotence -/

theorem pyLower_find?_none {c : Char}
    (h : lowerPairs.find? (fun p => p.1 == c) = none) : pyLower c = c := by
  unfold pyLower; rw [h]

theorem pyLower_find?_some {c : Char} {q : Char × Char}
    (h : lowerPairs.find? (fun p => p.1 == c) = some q) : pyLower c = q.2 := by
  unfold pyLower; rw [h]

theorem replAccent_find?_none {c : Char}
    (h : accentPairs.find? (fun p => p.1 == c) = none) : replAccent c = c := by
  unfold replAccent; rw [h]

theorem replAccent_find?_some {c : Char} {q : Char × Char}
    (h : accentPairs.find? (fun p => p.1 == c) = some q) :
    replAccent c = q.2 := by
  unfold replAccent; rw [h]

theorem accent_snd_fixed :
    ∀ p ∈ accentPairs, pyLower p.2 = p.2 ∧ replAccent p.2 = p.2 := by decide

theorem lower_snd_fixed :
    ∀ q ∈ lowerPairs, pyLower (replAccent q.2) = replAccent q.2 ∧
      replAccent (replAccent q.2) = replAccent q.2 := by decide

/-- One pass of lower + accent replacement reaches a character fixpoint. -/
theorem charFix_idem (c : Char) :
    pyLower (replAccent (pyLower c)) = replAccent (pyLower c) ∧
    replAccent (replAccent (pyLower c)) = replAccent (pyLower c) := by
  cases hq : lowerPairs.find? (fun p => p.1 == c) with
  | some q =>
    rw [pyLower_find?_some hq]
    exact lower_snd_fixed q (List.mem_of_find?_eq_some hq)
  | none =>
    rw [pyLower_find?_none hq]
    cases ha : accentPairs.find? (fun p => p.1 == c) with
    | some p =>
      rw [replAccent_find?_some ha]
      exact accent_snd_fixed p (List.mem_of_find?_eq_some ha)
    | none =>
      rw [replAccent_find?_none ha]
      exact ⟨pyLower_find?_none hq, replAccent_find?_none ha⟩

theorem map_fixed {f : Char → Char} {l : List Char}
    (h : ∀ c ∈ l, f c = c) : l.map f = l := by
  induction l with
  | nil => rfl
  | cons x xs ih =>
    simp only [List.map_cons]
    rw [h x (by simp), ih (fun c hc => h c (by simp [hc]))]

theorem mem_collapseGo {c : Char} :
    ∀ (b : Bool) (l : List Char), c ∈ collapseGo b l → c ∈ l ∨ c = ' ' := by
  intro b l
  induction l generalizing b with
  | nil => simp [collapseGo]
  | cons x xs ih =>
    intro hmem
    unfold collapseGo at hmem
    split_ifs at hmem with hsp hb
    · rcases ih true hmem with h | h
      · exact Or.inl (by simp [h])
      · exact Or.inr h
    · rcases List.mem_append.mp hmem with h | h
      · exact Or.inr (by simpa using h)
      · rcases ih true h with h2 | h2
        · exact Or.inl (by simp [h2])
        · exact Or.inr h2
    · rcases List.mem_cons.mp hmem with h | h
      · exact Or.inl (by simp [h])
      · rcases ih false h with h2 | h2
        · exact Or.inl (by simp [h2])
        · exact Or.inr h2

theorem mem_dropTrailWs {c : Char} :
    ∀ l : List Char, c ∈ dropTrailWs l → c ∈ l := by
  intro l
  induction l with
  | nil => simp [dropTrailWs]
  | cons x xs ih =>
    intro hmem
    unfold dropTrailWs at hmem
    rcases hr : dropTrailWs xs with _ | ⟨y, ys⟩
    · rw [hr] at hmem
      split_ifs at hmem
      · simp at hmem
      · simp at hmem; simp [hmem]
    · rw [hr] at hmem
      rcases List.mem_cons.mp hmem with h | h
      · simp [h]
      · exact List.mem_cons_of_mem x (ih (by rw [hr]; exact h))

theorem mem_dropLeadWs {c : Char} (l : List Char)
    (h : c ∈ dropLeadWs l) : c ∈ l :=
  (List.dropWhile_sublist _).subset h

theorem mem_stripWs {c : Char} (l : List Char) (h : c ∈ stripWs l) : c ∈ l :=
  mem_dropLeadWs l (mem_dropTrailWs (dropLeadWs l) h)

theorem collapseGo_cons_sp_false {c : Char} (cs : List Char)
    (h : isSpaceChar c = true) :
    collapseGo false (c :: cs) = ' ' :: collapseGo true cs := by
  conv_lhs => rw [collapseGo]
  rw [if_pos h]
  simp

theorem collapseGo_cons_sp_true {c : Char} (cs : List Char)
    (h : isSpaceChar c = true) :
    collapseGo true (c :: cs) = collapseGo true cs := by
  conv_lhs => rw [collapseGo]
  rw [if_pos h]
  simp

theorem collapseGo_cons_ns {b : Bool} {c : Char} (cs : List Char)
    (h : isSpaceChar c = false) :
    collapseGo b (c :: cs) = c :: collapseGo false cs := by
  conv_lhs => rw [collapseGo]
  rw [if_neg (by simp [h])]

theorem noRuns_cons (x : Char) (m : List Char) :
    NoRuns (x :: m) ↔ ((isSpaceChar x = true → x = ' ') ∧
      (∀ d r, m = d :: r → ¬(x = ' ' ∧ d = ' ')) ∧ NoRuns m) := by
  cases m with
  | nil =>
    constructor
    · intro h1
      refine ⟨h1, ?_, trivial⟩
      intro d r hdr
      cases hdr
    · intro h
      exact h.1
  | cons d r =>
    constructor
    · rintro ⟨h1, h2, h3⟩
      refine ⟨h1, ?_, h3⟩
      intro d' r' hdr
      injection hdr with hd _
      rw [← hd]
      exact h2
    · rintro ⟨h1, h2, h3⟩
      exact ⟨h1, h2 d r rfl, h3⟩

theorem noRuns_tail {x : Char} {m : List Char} (h : NoRuns (x :: m)) :
    NoRuns m := ((noRuns_cons x m).mp h).2.2

theorem space_blank : isSpaceChar ' ' = true := by decide

theorem ne_blank_of_ns {x : Char} (h : isSpaceChar x = false) : ¬ x = ' ' := by
  intro hx; rw [hx] at h; simp [isSpaceChar] at h

theorem collapseGo_invariant :
    ∀ l : List Char, NoRuns (collapseGo false l) ∧
      NoRuns (collapseGo true l) ∧ HeadNonSpace (collapseGo true l) := by
  intro l
  induction l with
  | nil => exact ⟨trivial, trivial, trivial⟩
  | cons x xs ih =>
    obtain ⟨ihf, iht, ihh⟩ := ih
    by_cases hsp : isSpaceChar x = true
    · refine ⟨?_, ?_, ?_⟩
      · rw [collapseGo_cons_sp_false xs hsp, noRuns_cons]
        refine ⟨fun _ => rfl, ?_, iht⟩
        intro d r hdr hand
        have hh : HeadNonSpace (d :: r) := by rw [← hdr]; exact ihh
        have : isSpaceChar d = false := hh
        exact ne_blank_of_ns this hand.2
      · rw [collapseGo_cons_sp_true xs hsp]; exact iht
      · rw [collapseGo_cons_sp_true xs hsp]; exact ihh
    · have hns : isSpaceChar x = false := by simpa using hsp
      refine ⟨?_, ?_, ?_⟩
      · rw [collapseGo_cons_ns xs hns, noRuns_cons]
        exact ⟨fun hc => absurd hc hsp,
          fun d r _ hand => ne_blank_of_ns hns hand.1, ihf⟩
      · rw [collapseGo_cons_ns xs hns, noRuns_cons]
        exact ⟨fun hc => absurd hc hsp,
          fun d r _ hand => ne_blank_of_ns hns hand.1, ihf⟩
      · rw [collapseGo_cons_ns xs hns]; exact hns

theorem dropTrailWs_cons_nil {x : Char} {xs : List Char}
    (h : dropTrailWs xs = []) :
    dropTrailWs (x :: xs) = if isSpaceChar x = true then [] else [x] := by
  conv_lhs => rw [dropTrailWs]
  rw [h]

theorem dropTrailWs_cons_cons {x : Char} {xs : List Char} {y : Char}
    {ys : List Char} (h : dropTrailWs xs = y :: ys) :
    dropTrailWs (x :: xs) = x :: y :: ys := by
  conv_lhs => rw [dropTrailWs]
  rw [h]

theorem dropTrailWs_head {w : List Char} {c : Char} {r : List Char}
    (h : dropTrailWs w = c :: r) : ∃ r', w = c :: r' := by
  cases w with
  | nil => simp [dropTrailWs] at h
  | cons x xs =>
    rcases hr : dropTrailWs xs with _ | ⟨y, ys⟩
    · rw [dropTrailWs_cons_nil hr] at h
      split_ifs at h
      have hx : x = c := (List.cons.injEq .. |>.mp h).1
      exact ⟨xs, by rw [hx]⟩
    · rw [dropTrailWs_cons_cons hr] at h
      have hx : x = c := (List.cons.injEq .. |>.mp h).1
      exact ⟨xs, by rw [hx]⟩

theorem noRuns_dropLeadWs (l : List Char) (h : NoRuns l) :
    NoRuns (dropLeadWs l) := by
  induction l with
  | nil => simpa [dropLeadWs] using h
  | cons x xs ih =>
    unfold dropLeadWs List.dropWhile
    split
    · exact ih (noRuns_tail h)
    · exact h

theorem noRuns_dropTrailWs (l : List Char) (h : NoRuns l) :
    NoRuns (dropTrailWs l) := by
  induction l with
  | nil => simpa [dropTrailWs] using h
  | cons x xs ih =>
    rcases hr : dropTrailWs xs with _ | ⟨y, ys⟩
    · rw [dropTrailWs_cons_nil hr]
      split_ifs
      · trivial
      · exact ((noRuns_cons x xs).mp h).1
    · rw [dropTrailWs_cons_cons hr]
      have hxs := ih (noRuns_tail h)
      rw [hr] at hxs
      rw [noRuns_cons]
      refine ⟨((noRuns_cons x xs).mp h).1, ?_, hxs⟩
      intro d r hdr
      injection hdr with hd _
      rw [← hd]
      obtain ⟨r', hr'⟩ := dropTrailWs_head hr
      exact ((noRuns_cons x xs).mp h).2.1 y r' hr'

theorem noRuns_stripWs (l : List Char) (h : NoRuns l) : NoRuns (stripWs l) :=
  noRuns_dropTrailWs _ (noRuns_dropLeadWs l h)

theorem collapse_fix (l : List Char) (h : NoRuns l) :
    collapseGo false l = l ∧ (HeadNonSpace l → collapseGo true l = l) := by
  induction l with
  | nil => exact ⟨rfl, fun _ => rfl⟩
  | cons x xs ih =>
    obtain ⟨hhead, hpair, htail⟩ := (noRuns_cons x xs).mp h
    obtain ⟨ih1, ih2⟩ := ih htail
    by_cases hsp : isSpaceChar x = true
    · have hx : x = ' ' := hhead hsp
      constructor
      · have hxs : HeadNonSpace xs := by
          cases xs with
          | nil => trivial
          | cons d r =>
            have hd1 := hpair d r rfl
            rw [hx] at hd1
            have hd2 := ((noRuns_cons d r).mp htail).1
            show isSpaceChar d = false
            by_cases hds : isSpaceChar d = true
            · exact absurd ⟨rfl, hd2 hds⟩ hd1
            · simpa using hds
        rw [collapseGo_cons_sp_false xs hsp, ih2 hxs, hx]
      · intro hh
        have : isSpaceChar x = false := hh
        rw [this] at hsp
        cases hsp
    · have hns : isSpaceChar x = false := by simpa using hsp
      exact ⟨by rw [collapseGo_cons_ns xs hns, ih1],
        fun _ => by rw [collapseGo_cons_ns xs hns, ih1]⟩

theorem head_dropLeadWs {l : List Char} {c : Char} {r : List Char}
    (h : dropLeadWs l = c :: r) : isSpaceChar c = false := by
  induction l with
  | nil => simp [dropLeadWs] at h
  | cons x xs ih =>
    unfold dropLeadWs List.dropWhile at h
    split at h
    · exact ih h
    · rename_i hns
      have := (List.cons.injEq .. ).mp h
      rw [← this.1]
      simpa using hns

theorem dropLeadWs_of_headNonSpace (l : List Char) (h : HeadNonSpace l) :
    dropLeadWs l = l := by
  cases l with
  | nil => rfl
  | cons x xs =>
    unfold dropLeadWs List.dropWhile
    unfold HeadNonSpace at h
    simp [h]

theorem dropTrailWs_idem (l : List Char) :
    dropTrailWs (dropTrailWs l) = dropTrailWs l := by
  induction l with
  | nil => rfl
  | cons x xs ih =>
    rcases hr : dropTrailWs xs with _ | ⟨y, ys⟩
    · rw [dropTrailWs_cons_nil hr]
      split_ifs with hsp
      · rfl
      · rw [dropTrailWs_cons_nil (rfl : dropTrailWs ([] : List Char) = []),
          if_neg hsp]
    · rw [dropTrailWs_cons_cons hr]
      have h2 : dropTrailWs (y :: ys) = y :: ys := by
        rw [← hr]; exact ih
      rw [dropTrailWs_cons_cons h2]

theorem stripWs_idem (l : List Char) : stripWs (stripWs l) = stripWs l := by
  unfold stripWs
  have h1 : dropLeadWs (dropTrailWs (dropLeadWs l)) =
      dropTrailWs (dropLeadWs l) := by
    apply dropLeadWs_of_headNonSpace
    rcases hr : dropTrailWs (dropLeadWs l) with _ | ⟨c, r⟩
    · trivial
    · obtain ⟨r', hr'⟩ := dropTrailWs_head hr
      show isSpaceChar c = false
      exact head_dropLeadWs hr'
  rw [h1, dropTrailWs_idem]

/-- C9: `UltraRobustDateParser.normalize` is idempotent — lower-casing, the
    fixed accent replacements, whitespace collapsing and stripping reach a
    fixed point after one application. -/
theorem c9_normalize_idempotent (s : List Char) :
    normalizeChars (normalizeChars s) = normalizeChars s := by
  have hfix : ∀ c ∈ normalizeChars s, pyLower c = c ∧ replAccent c = c := by
    intro c hc
    unfold normalizeChars at hc
    have hc2 := mem_stripWs _ hc
    rcases mem_collapseGo false _ hc2 with hm | hsp
    · rcases List.mem_map.mp hm with ⟨a, ha, hac⟩
      rcases List.mem_map.mp ha with ⟨b, _, hba⟩
      rw [← hac, ← hba]
      exact charFix_idem b
    · rw [hsp]
      exact ⟨by decide, by decide⟩
  have hmap : ((normalizeChars s).map pyLower).map replAccent =
      normalizeChars s := by
    rw [map_fixed (fun c hc => (hfix c hc).1)]
    exact map_fixed (fun c hc => (hfix c hc).2)
  have hnr : NoRuns (normalizeChars s) := by
    unfold normalizeChars
    exact noRuns_stripWs _ (collapseGo_invariant _).1
  have hcol : collapseWs (normalizeChars s) = normalizeChars s :=
    (collapse_fix _ hnr).1
  have hlead : dropLeadWs (normalizeChars s) = normalizeChars s := by
    rcases hy : normalizeChars s with _ | ⟨c, r⟩
    · rfl
    · apply dropLeadWs_of_headNonSpace
      unfold normalizeChars stripWs at hy
      obtain ⟨r', hr'⟩ := dropTrailWs_head hy
      exact head_dropLeadWs hr'
  have htrail : dropTrailWs (normalizeChars s) = normalizeChars s :=
    dropTrailWs_idem (dropLeadWs (collapseWs ((s.map pyLower).map replAccent)))
  show stripWs (collapseWs (((normalizeChars s).map pyLower).map replAccent)) =
    normalizeChars s
  rw [hmap, hcol]
  show dropTrailWs (dropLeadWs (normalizeChars s)) = normalizeChars s
  rw [hlead, htrail]

theorem chain_headD_getLastD (l : List Date) (d0 : Date)
    (h : List.Chain' DLe l) (hne : l ≠ []) :
    DLe (l.headD d0) (l.getLastD d0) := by
  induction l with
  | nil => simp at hne
  | cons x xs ih =>
    cases xs with
    | nil => simpa using DLe_refl x
    | cons y ys =>
      have h1 : DLe x y := (List.chain'_cons.mp h).1
      have h2 := ih ((List.chain'_cons.mp h).2) (by simp)
      have e1 : (x :: y :: ys).getLastD d0 = (y :: ys).getLastD d0 := by
        simp [List.getLastD_cons]
      rw [List.headD_cons, e1]
      exact DLe_trans h1 (by simpa [List.headD_cons] using h2)

/-! ## Merge lemmas for the reconciler -/

theorem sortByStart_sorted_id (l : List BEvent)
    (h : List.Chain' (fun a b => DLe a.s b.s) l) : sortByStart l = l := by
  induction l with
  | nil => rfl
  | cons x xs ih =>
    show insertE x (sortByStart xs) = x :: xs
    rw [ih h.tail]
    cases xs with
    | nil => rfl
    | cons y ys =>
      show insertE x (y :: ys) = x :: y :: ys
      unfold insertE
      rw [if_pos (List.chain'_cons.mp h).1]

theorem mergeGo_sep : ∀ (l : List BEvent) (cur : MInterval),
    (∀ b bs, l = b :: bs → DLt cur.e b.s) →
    List.Chain' (fun a b => DLt a.e b.s) l →
    mergeGo cur l =
      cur :: l.map (fun b => (⟨b.s, b.e, [b.name]⟩ : MInterval)) := by
  intro l
  induction l with
  | nil => intro cur _ _; rfl
  | cons b bs ih =>
    intro cur hhead hchain
    have hcb : DLt cur.e b.s := hhead b bs rfl
    show mergeGo cur (b :: bs) = _
    unfold mergeGo
    rw [if_neg (not_DLe_of_DLt hcb)]
    rw [ih ⟨b.s, b.e, [b.name]⟩ ?_ hchain.tail]
    · rfl
    · intro b' bs' hbs
      subst hbs
      exact (List.chain'_cons.mp hchain).1

/-! ## Claim theorems C3, C5, C8 -/

/-- C3 counterexample: against the merged busy interval
    `[2026-01-10, 2026-01-15)`, the request `[2026-01-15, 2026-01-17)` yields
    NO conflict — the claim asserts it DOES conflict (busy-inclusive
    boundary), but the code's overlap test is strictly half-open. -/
theorem c3_counterexample :
    overlapsQuery [⟨⟨2026,1,10⟩, ⟨2026,1,15⟩, [("Reserva")]⟩]
      ⟨2026,1,15⟩ ⟨2026,1,17⟩ = [] := by decide

/-- C3 (amended): against busy `[2026-01-10, 2026-01-15)` the request
    `[2026-01-12, 2026-01-14)` conflicts, and the request
    `[2026-01-15, 2026-01-17)` does NOT conflict: the overlap query is the
    standard half-open test `qs < b.e ∧ b.s < qe`, so a checkout boundary
    equal to the next request's checkin is free. -/
theorem c3_half_open_boundary :
    overlapsQuery [⟨⟨2026,1,10⟩, ⟨2026,1,15⟩, [("Reserva")]⟩]
      ⟨2026,1,12⟩ ⟨2026,1,14⟩ =
      [⟨⟨2026,1,10⟩, ⟨2026,1,15⟩, [("Reserva")]⟩] ∧
    overlapsQuery [⟨⟨2026,1,10⟩, ⟨2026,1,15⟩, [("Reserva")]⟩]
      ⟨2026,1,15⟩ ⟨2026,1,17⟩ = [] := by decide

/-- C5: for every reference date and every valid (day, month) pair, the year
    chosen by `infer_year_and_month` combined with (month, day) is a calendar
    date on or after today, except possibly when today's own month/day match
    (excluded by hypothesis; in fact that case returns today itself). -/
theorem c5_year_inference_not_past (today : Date) (d m : Nat)
    (hd1 : 1 ≤ d) (hd2 : d ≤ 31) (hm1 : 1 ≤ m) (hm2 : m ≤ 12)
    (hx : ¬(m = today.month ∧ d = today.day)) :
    DLe today ⟨(infer_year_and_month d (some m) today).1, m, d⟩ := by
  have hm' : infer_year_and_month d (some m) today =
      (if m < today.month then today.year + 1
       else if m = today.month ∧ d < today.day then today.year + 1
       else today.year, m) := rfl
  rw [hm', DLe_def]
  dsimp only
  split_ifs <;> omega

theorem c5_witness :
    (1 ≤ 5 ∧ 5 ≤ 31 ∧ 1 ≤ 11 ∧ 11 ≤ 12 ∧
      ¬(11 = (⟨2025,10,12⟩ : Date).month ∧ 5 = (⟨2025,10,12⟩ : Date).day)) ∧
    DLe ⟨2025,10,12⟩ ⟨(infer_year_and_month 5 (some 11) ⟨2025,10,12⟩).1, 11, 5⟩ :=
  ⟨by decide, c5_year_inference_not_past ⟨2025,10,12⟩ 5 11 (by decide)
    (by decide) (by decide) (by decide) (by decide)⟩

/-- C8 counterexample: the events `[2026-01-10, 2026-01-12)` and
    `[2026-01-12, 2026-01-14)` are pairwise disjoint (half-open, touching)
    and sorted by start, yet the merge step coalesces them into a single
    interval because it merges on `start <= current end`. -/
theorem c8_counterexample :
    mergeBusy [⟨⟨2026,1,10⟩, ⟨2026,1,12⟩, ("a")⟩,
               ⟨⟨2026,1,12⟩, ⟨2026,1,14⟩, ("b")⟩] =
      [⟨⟨2026,1,10⟩, ⟨2026,1,14⟩, [("a"), ("b")]⟩] ∧
    mergeBusy [⟨⟨2026,1,10⟩, ⟨2026,1,12⟩, ("a")⟩,
               ⟨⟨2026,1,12⟩, ⟨2026,1,14⟩, ("b")⟩] ≠
      [⟨⟨2026,1,10⟩, ⟨2026,1,12⟩, [("a")]⟩,
       ⟨⟨2026,1,12⟩, ⟨2026,1,14⟩, [("b")]⟩] := by decide

/-- C8 (amended): for every event list already sorted by start whose
    intervals are strictly separated (each event's start strictly after the
    previous event's end — touching boundaries excluded, since `<=` merges
    them), the merge step returns the same intervals unchanged: one output
    interval per input event with the same start and end. -/
theorem c8_merge_separated_id (l : List BEvent)
    (hs : List.Chain' (fun a b => DLe a.s b.s) l)
    (hsep : List.Chain' (fun a b => DLt a.e b.s) l) :
    mergeBusy l = l.map (fun b => (⟨b.s, b.e, [b.name]⟩ : MInterval)) := by
  unfold mergeBusy
  rw [sortByStart_sorted_id l hs]
  cases l with
  | nil => rfl
  | cons b bs =>
    show mergeGo ⟨b.s, b.e, [b.name]⟩ bs = _
    rw [mergeGo_sep bs ⟨b.s, b.e, [b.name]⟩ ?_ hsep.tail]
    · rfl
    · intro b' bs' hbs
      subst hbs
      exact (List.chain'_cons.mp hsep).1

theorem c8_witness :
    (List.Chain' (fun a b : BEvent => DLe a.s b.s)
      [⟨⟨2026,1,10⟩, ⟨2026,1,12⟩, ("a")⟩, ⟨⟨2026,1,13⟩, ⟨2026,1,14⟩, ("b")⟩] ∧
     List.Chain' (fun a b : BEvent => DLt a.e b.s)
      [⟨⟨2026,1,10⟩, ⟨2026,1,12⟩, ("a")⟩, ⟨⟨2026,1,13⟩, ⟨2026,1,14⟩, ("b")⟩]) ∧
    mergeBusy [⟨⟨2026,1,10⟩, ⟨2026,1,12⟩, ("a")⟩,
               ⟨⟨2026,1,13⟩, ⟨2026,1,14⟩, ("b")⟩] =
      [⟨⟨2026,1,10⟩, ⟨2026,1,12⟩, [("a")]⟩,
       ⟨⟨2026,1,13⟩, ⟨2026,1,14⟩, [("b")]⟩] :=
  ⟨⟨List.chain'_cons.mpr ⟨by decide, List.chain'_singleton _⟩,
    List.chain'_cons.mpr ⟨by decide, List.chain'_singleton _⟩⟩, by
    rw [c8_merge_separated_id _
      (List.chain'_cons.mpr ⟨by decide, List.chain'_singleton _⟩)
      (List.chain'_cons.mpr ⟨by decide, List.chain'_singleton _⟩)]
    decide⟩

/-! ## Claim theorems C1 and C2 (evaluations at the failing inputs) -/

/-- C1: evaluating `_validate_multi_intent_response` at the claim's input —
    a verified confirmed-available fact and the draft "lamentablemente no
    está disponible" with the availability intent — returns
    `(isValid = true, no corrected draft)`, NOT the failure the claim (and
    the spec) require.  The cause: the positive-indicator lexicon contains
    "disponible", which occurs inside the normalized negative phrase
    "no esta disponible", so `draft_says_available` is true and the
    contradiction guard `... and not draft_says_available` never fires. -/
theorem c1_code_eval :
    validate_multi_intent ("lamentablemente no está disponible")
      [("[VERIFICADO_ICAL] DISPONIBLE del 02/02/2026 al 05/02/2026 (3 noches).")]
      [("availability")] = (true, none) := by decide

/-- C2: evaluating `check_availability_robust` at an input that passes the
    property-id, calendar-source, date-parsing, interval-order and past-date
    checks, with a failing calendar fetch: the call returns normally and
    `available` is indeed `none` (unknown), but the verdict's message is the
    fixed string "NO DISPONIBLE en esas fechas." (and `success = true`)
    instead of carrying the fetch error diagnostic — Python's
    `if ical_result["available"]:` treats the `None` of the unknown state
    like `False` and falls into the no-conflicts "NO DISPONIBLE" arm. -/
theorem c2_code_eval :
    check_availability_robust (("2/2 5/2").data) (some ("RECOLETA-PATIO"))
      ("https://calendar.example/ical.ics") ⟨2025,1,1⟩
      (.error ("Error descargando calendario")) =
    { success := true, message := ("NO DISPONIBLE en esas fechas."),
      checkin := some ⟨2025,2,2⟩, checkout := some ⟨2025,2,5⟩,
      available := none } := by decide

/-- C6: the classifier never returns pricing together with availability:
    with dates present pricing is never emitted, without dates availability
    is never emitted; and on "precio para el finde?" with dates present the
    result contains availability (via the implicit-availability rule) and
    not pricing. -/
theorem c6_pricing_availability_exclusive :
    (∀ t : List Char, ("pricing" : String) ∉ classify_intents_multi t true) ∧
    (∀ t : List Char,
      ("availability" : String) ∉ classify_intents_multi t false) ∧
    ("pricing" : String) ∉
      classify_intents_multi (("precio para el finde?").data) true ∧
    ("availability" : String) ∈
      classify_intents_multi (("precio para el finde?").data) true := by
  refine ⟨fun t => ?_, fun t => ?_, by decide, by decide⟩
  · simp only [classify_intents_multi]
    generalize amenAny (normalizeChars t) = A
    generalize availAny (normalizeChars t) = B
    generalize priceAny (normalizeChars t) = P
    generalize checkinAny (normalizeChars t) = C
    generalize checkoutAny (normalizeChars t) = D
    generalize recomAny (normalizeChars t) = E
    generalize policyAny (normalizeChars t) = F
    cases A <;> cases B <;> cases P <;> cases C <;> cases D <;> cases E <;>
      cases F <;> decide
  · simp only [classify_intents_multi]
    generalize amenAny (normalizeChars t) = A
    generalize availAny (normalizeChars t) = B
    generalize priceAny (normalizeChars t) = P
    generalize checkinAny (normalizeChars t) = C
    generalize checkoutAny (normalizeChars t) = D
    generalize recomAny (normalizeChars t) = E
    generalize policyAny (normalizeChars t) = F
    cases A <;> cases B <;> cases P <;> cases C <;> cases D <;> cases E <;>
      cases F <;> decide

/-! ## Membership lemmas for the parser branches -/

theorem mkDate_eq_some {y m d : Nat} {dd : Date} (h : mkDate y m d = some dd) :
    dd = ⟨y, m, d⟩ := by
  unfold mkDate at h
  split_ifs at h
  exact (Option.some.injEq .. |>.mp h).symm

theorem insertD_ne_nil (x : Date) (l : List Date) : insertD x l ≠ [] := by
  cases l with
  | nil => simp [insertD]
  | cons y ys =>
    unfold insertD
    split_ifs <;> simp

theorem parse_numeric_mem (text : List Char) (today : Date) (p : Date × Date)
    (hp : p ∈ parse_numeric_dates text today) : DLe p.1 p.2 := by
  simp only [parse_numeric_dates] at hp
  split at hp
  · simp at hp
  · simp only [List.mem_singleton] at hp
    rw [hp]
    exact DLe_addDays _ 1
  · rename_i d ds _ _
    simp only [List.mem_singleton] at hp
    rw [hp]
    exact chain_headD_getLastD (sortDates (d :: ds)) ⟨1, 1, 1⟩
      (chain_sortDates _) (insertD_ne_nil _ _)

theorem parse_explicit_mem (text : List Char) (today : Date) (p : Date × Date)
    (hp : p ∈ parse_explicit_dates text today) : DLe p.1 p.2 := by
  simp only [parse_explicit_dates] at hp
  split at hp
  · -- desde family
    split at hp
    · split at hp
      · split at hp
        · simp only [List.mem_singleton] at hp
          rw [hp]
          exact DLe_addDays _ _
        · simp at hp
      · simp at hp
    · simp at hp
  · split at hp
    · -- el family
      split at hp
      · split at hp
        · split at hp
          · simp only [List.mem_singleton] at hp
            rw [hp]
            exact DLe_addDays _ 1
          · simp at hp
        · simp at hp
      · simp at hp
    · split at hp
      · -- del .. al family
        split at hp
        · split at hp
          · split at hp
            · rename_i hlt
              simp only [List.mem_singleton] at hp
              rw [hp]
              exact DLt_le hlt
            · simp at hp
          · simp at hp
        · simp at hp
      · split at hp
        · -- ir del family
          split at hp
          · split at hp
            · split at hp
              · split at hp
                · rename_i hlt
                  simp only [List.mem_singleton] at hp
                  rw [hp]
                  exact DLt_le hlt
                · simp at hp
              · simp at hp
            · simp at hp
          · simp at hp
        · -- primer(a) semana family
          split at hp
          · split at hp
            · split at hp
              · rename_i hc1 hc7
                simp only [List.mem_singleton] at hp
                rw [hp]
                rw [mkDate_eq_some hc1, mkDate_eq_some hc7, DLe_def]
                dsimp only
                omega
              · simp at hp
            · simp at hp
          · simp at hp

theorem weekdayLoop_mem (t : List Char) (today : Date) (p : Date × Date) :
    ∀ l, p ∈ weekdayLoop t today l → DLe p.1 p.2 := by
  intro l
  induction l with
  | nil => intro hp; simp [weekdayLoop] at hp
  | cons x rest ih =>
    intro hp
    rcases x with ⟨nm, wd⟩
    simp only [weekdayLoop] at hp
    split at hp
    · simp only [List.mem_singleton] at hp
      rw [hp]
      exact DLe_addDays _ 1
    · exact ih hp

set_option maxHeartbeats 1000000 in
theorem parse_relative_mem (text : List Char) (today : Date) (p : Date × Date)
    (hp : p ∈ parse_relative_dates text today) : DLe p.1 p.2 := by
  simp only [parse_relative_dates] at hp
  split at hp
  · simp only [List.mem_singleton] at hp
    rw [hp]
    exact DLe_addDays _ 2
  · split at hp
    · simp only [List.mem_singleton] at hp
      rw [hp]
      exact DLe_addDays _ 2
    · exact weekdayLoop_mem _ _ p _ hp

/-- C4 (amended): every interval returned by `parse_all` satisfies
    `checkout >= checkin` — but not the claim's strict `checkout > checkin`,
    which fails for repeated numeric dates and for "desde ... 0 noches". -/
theorem c4_parse_all_checkout_ge_checkin (text : List Char) (today : Date)
    (p : Date × Date) (hp : p ∈ parse_all text today) : DLe p.1 p.2 := by
  simp only [parse_all] at hp
  split at hp
  · exact parse_explicit_mem text today p hp
  · split at hp
    · exact parse_numeric_mem text today p hp
    · exact parse_relative_mem text today p hp

/-- C4 counterexample: on "2/2 2/2" (the numeric pattern with repeated
    dates) the parser returns the single interval whose checkout equals its
    checkin, violating the claimed invariant `checkout > checkin`. -/
theorem c4_counterexample :
    parse_all (("2/2 2/2").data) ⟨2025,1,1⟩ =
      [(⟨2025,2,2⟩, ⟨2025,2,2⟩)] ∧
    ¬ DLt (⟨2025,2,2⟩ : Date) (⟨2025,2,2⟩ : Date) := by decide

theorem c4_witness :
    ((⟨2025,2,2⟩ : Date), (⟨2025,2,3⟩ : Date)) ∈
      parse_all (("2/2").data) ⟨2025,1,1⟩ ∧
    DLe (⟨2025,2,2⟩ : Date) (⟨2025,2,3⟩ : Date) :=
  ⟨by decide, c4_parse_all_checkout_ge_checkin (("2/2").data) ⟨2025,1,1⟩
    ((⟨2025,2,2⟩ : Date), (⟨2025,2,3⟩ : Date)) (by decide)⟩

/-! ## Helpers for C7 -/

/-- The source's year-inference rule produces exactly the spec's "next
    occurrence of that month/day on or after today". -/
theorem infer_eq_nextOcc (m d : Nat) (today : Date) :
    (⟨(infer_year_and_month d (some m) today).1, m, d⟩ : Date) =
      specNextOccurrence m d today := by
  have hm' : infer_year_and_month d (some m) today =
      (if m < today.month then today.year + 1
       else if m = today.month ∧ d < today.day then today.year + 1
       else today.year, m) := rfl
  unfold specNextOccurrence
  rw [hm']
  dsimp only
  by_cases hc : DLe today ⟨today.year, m, d⟩
  · rw [if_pos hc]
    rw [DLe_def] at hc
    dsimp only at hc
    split_ifs with hA hB <;>
      first
        | rfl
        | (simp only [Date.mk.injEq]; omega)
  · rw [if_neg hc]
    rw [DLe_def] at hc
    dsimp only at hc
    split_ifs with hA hB <;>
      first
        | rfl
        | (simp only [Date.mk.injEq]; omega)

theorem infer_year_bounds (d m : Nat) (today : Date) (h1 : 1 ≤ today.year)
    (h2 : today.year ≤ 9998) :
    1 ≤ (infer_year_and_month d (some m) today).1 ∧
      (infer_year_and_month d (some m) today).1 ≤ 9999 := by
  have hm' : infer_year_and_month d (some m) today =
      (if m < today.month then today.year + 1
       else if m = today.month ∧ d < today.day then today.year + 1
       else today.year, m) := rfl
  rw [hm']
  dsimp only
  split_ifs <;> omega

theorem mkDate_feb (y d : Nat) (hy1 : 1 ≤ y) (hy2 : y ≤ 9999) (hd1 : 1 ≤ d)
    (hd2 : d ≤ 28) : mkDate y 2 d = some ⟨y, 2, d⟩ := by
  unfold mkDate
  rw [if_pos]
  refine ⟨hy1, hy2, by norm_num, by norm_num, hd1, ?_⟩
  unfold daysInMonth
  split_ifs <;> omega

theorem sortDates_pair (a b : Date) :
    sortDates [a, b] = if DLe a b then [a, b] else [b, a] := by
  show insertD a (insertD b []) = _
  show insertD a [b] = _
  unfold insertD
  split_ifs <;> rfl

theorem c7_explicit_nil (today : Date) :
    parse_explicit_dates (("esta disponible del 2/2 al 5/2?").data) today =
      [] := rfl

theorem c7_numeric_matches :
    finditerTop numPat
      (normalizeChars (("esta disponible del 2/2 al 5/2?").data)) =
      [(2, 2), (5, 2)] := rfl

/-- C7 (amended): for every reference date `today` whose year lies in
    1..9998 (so that Python's year-9999 cap cannot void the inferred dates),
    `parse_all` on "esta disponible del 2/2 al 5/2?" returns exactly one
    interval, running from the earlier to the later of the two inferred
    endpoint dates, where each endpoint is the next occurrence of Feb 2
    (resp. Feb 5) on or after `today` — the source's `infer_year_and_month`
    is proved equal to that spec-side rule in `infer_eq_nextOcc`. -/
theorem c7_numeric_span (today : Date) (h1 : 1 ≤ today.year)
    (h2 : today.year ≤ 9998) :
    parse_all (("esta disponible del 2/2 al 5/2?").data) today =
      [(if DLe (specNextOccurrence 2 2 today) (specNextOccurrence 2 5 today)
        then (specNextOccurrence 2 2 today, specNextOccurrence 2 5 today)
        else (specNextOccurrence 2 5 today, specNextOccurrence 2 2 today))] := by
  rw [← infer_eq_nextOcc 2 2 today, ← infer_eq_nextOcc 2 5 today]
  have hb1 := infer_year_bounds 2 2 today h1 h2
  have hb2 := infer_year_bounds 5 2 today h1 h2
  have hm2 : (infer_year_and_month 2 (some 2) today).2 = 2 := rfl
  have hm5 : (infer_year_and_month 5 (some 2) today).2 = 2 := rfl
  have hc1 : numericCand today (2, 2) =
      some ⟨(infer_year_and_month 2 (some 2) today).1, 2, 2⟩ := by
    unfold numericCand
    rw [if_pos (by norm_num)]
    dsimp only
    rw [hm2]
    exact mkDate_feb _ 2 hb1.1 hb1.2 (by norm_num) (by norm_num)
  have hc2 : numericCand today (5, 2) =
      some ⟨(infer_year_and_month 5 (some 2) today).1, 2, 5⟩ := by
    unfold numericCand
    rw [if_pos (by norm_num)]
    dsimp only
    rw [hm5]
    exact mkDate_feb _ 5 hb2.1 hb2.2 (by norm_num) (by norm_num)
  have hnum : parse_numeric_dates
      (("esta disponible del 2/2 al 5/2?").data) today =
      [(if DLe ⟨(infer_year_and_month 2 (some 2) today).1, 2, 2⟩
          ⟨(infer_year_and_month 5 (some 2) today).1, 2, 5⟩
        then ((⟨(infer_year_and_month 2 (some 2) today).1, 2, 2⟩ : Date),
              (⟨(infer_year_and_month 5 (some 2) today).1, 2, 5⟩ : Date))
        else ((⟨(infer_year_and_month 5 (some 2) today).1, 2, 5⟩ : Date),
              (⟨(infer_year_and_month 2 (some 2) today).1, 2, 2⟩ : Date)))] := by
    simp only [parse_numeric_dates]
    rw [c7_numeric_matches]
    simp only [List.filterMap_cons, List.filterMap_nil, hc1, hc2]
    rw [sortDates_pair]
    by_cases hc : DLe ⟨(infer_year_and_month 2 (some 2) today).1, 2, 2⟩
        ⟨(infer_year_and_month 5 (some 2) today).1, 2, 5⟩
    · rw [if_pos hc, if_pos hc]
      simp [List.getLastD_cons]
    · rw [if_neg hc, if_neg hc]
      simp [List.getLastD_cons]
  simp only [parse_all]
  rw [c7_explicit_nil today, hnum]
  simp

/-- C7 counterexample: at the valid reference date 9999-03-01 both inferred
    years roll over to 10000, the date constructions fail (Python
    `ValueError`, year out of range), and `parse_all` returns NO interval —
    refuting the claim's "exactly one interval ... for every reference date
    today". -/
theorem c7_counterexample :
    parse_all (("esta disponible del 2/2 al 5/2?").data) ⟨9999,3,1⟩ = [] := by
  decide

theorem c7_witness :
    (1 ≤ (⟨2025,10,12⟩ : Date).year ∧ (⟨2025,10,12⟩ : Date).year ≤ 9998) ∧
    parse_all (("esta disponible del 2/2 al 5/2?").data) ⟨2025,10,12⟩ =
      [(⟨2026,2,2⟩, ⟨2026,2,5⟩)] := by
  refine ⟨by decide, ?_⟩
  rw [c7_numeric_span ⟨2025,10,12⟩ (by decide) (by decide)]
  decide

/-! ## Helpers for C10 -/

/-- Embeds `_validate_multi_intent_response` either passes with no correction, or
    fails with a corrected draft that is some text followed by the fixed
    closing line. -/
theorem validate_pair_shape (draft : String) (facts intents : List String) :
    validate_multi_intent draft facts intents = (true, none) ∨
    (∃ x : String, validate_multi_intent draft facts intents =
      (false, some (x ++ ("\n\nSaludos,\nEquipo de Atencion")))) := by
  simp only [validate_multi_intent]
  split
  · exact Or.inl rfl
  · split
    · exact Or.inl rfl
    · exact Or.inr ⟨_, rfl⟩

theorem nsMem_dropLeadWs {c : Char} {l : List Char} (hc : c ∈ l)
    (hns : isSpaceChar c = false) : c ∈ dropLeadWs l := by
  induction l with
  | nil => cases hc
  | cons x xs ih =>
    by_cases hx : isSpaceChar x = true
    · have he : dropLeadWs (x :: xs) = dropLeadWs xs := by
        unfold dropLeadWs
        rw [List.dropWhile_cons, if_pos hx]
      rw [he]
      rcases List.mem_cons.mp hc with h | h
      · rw [h] at hns
        rw [hns] at hx
        cases hx
      · exact ih h
    · have he : dropLeadWs (x :: xs) = x :: xs := by
        unfold dropLeadWs
        rw [List.dropWhile_cons, if_neg (by simpa using hx)]
      rw [he]
      exact hc

theorem dropTrailWs_ne_nil {c : Char} {l : List Char} (hc : c ∈ l)
    (hns : isSpaceChar c = false) : dropTrailWs l ≠ [] := by
  induction l with
  | nil => cases hc
  | cons x xs ih =>
    rcases List.mem_cons.mp hc with h | h
    · rcases hr : dropTrailWs xs with _ | ⟨y, ys⟩
      · rw [dropTrailWs_cons_nil hr, if_neg (by rw [← h]; simp [hns])]
        simp
      · rw [dropTrailWs_cons_cons hr]
        simp
    · rcases hr : dropTrailWs xs with _ | ⟨y, ys⟩
      · exact absurd hr (ih h)
      · rw [dropTrailWs_cons_cons hr]
        simp

theorem stripWs_ne_nil {c : Char} {l : List Char} (hc : c ∈ l)
    (hns : isSpaceChar c = false) : stripWs l ≠ [] :=
  dropTrailWs_ne_nil (nsMem_dropLeadWs hc hns) hns

/-- C10: whenever the consistency validator flags an issue (validation
    fails), the draft returned by `generate_with_llm` is the corrected one:
    it ends with the fixed hardcoded line "Saludos,\nEquipo de Atencion" and
    does not depend on the caller-configured signature argument — the
    signature is only used on uncorrected paths. -/
theorem c10_corrected_signature_free (raw : RawOut)
    (extra_facts intents : List String) (sig1 sig2 : String)
    (h : (validate_multi_intent raw.draft extra_facts intents).1 = false) :
    (("Saludos,\nEquipo de Atencion").data <:+
      (generate_with_llm raw extra_facts intents sig1).draft.data) ∧
    (generate_with_llm raw extra_facts intents sig1).draft =
      (generate_with_llm raw extra_facts intents sig2).draft := by
  rcases validate_pair_shape raw.draft extra_facts intents with hv | ⟨x, hv⟩
  · rw [hv] at h
    cases h
  · have hdata : ((x ++ ("\n\nSaludos,\nEquipo de Atencion")) : String).data =
        x.data ++ ("\n\nSaludos,\nEquipo de Atencion").data := rfl
    have hn : ('n' : Char) ∈
        ((x ++ ("\n\nSaludos,\nEquipo de Atencion")) : String).data := by
      rw [hdata]
      exact List.mem_append_right _ (by decide)
    have hne : (x ++ ("\n\nSaludos,\nEquipo de Atencion") : String) ≠ ("") := by
      intro he
      rw [he] at hn
      cases hn
    have hstrip :
        stripWs ((x ++ ("\n\nSaludos,\nEquipo de Atencion")) : String).data ≠
          [] := stripWs_ne_nil hn (by decide)
    have hg : ∀ s : String,
        (generate_with_llm raw extra_facts intents s).draft =
          x ++ ("\n\nSaludos,\nEquipo de Atencion") := by
      intro s
      show finalDraft raw.draft
        (validate_multi_intent raw.draft extra_facts intents) s = _
      rw [hv]
      unfold finalDraft
      dsimp only
      rw [if_pos (show ¬false = true ∧
        x ++ ("\n\nSaludos,\nEquipo de Atencion") ≠ ("") from ⟨by simp, hne⟩)]
      rw [if_neg (by simpa using hstrip)]
    constructor
    · have hsplit : (("\n\nSaludos,\nEquipo de Atencion").data : List Char) =
          ('\n' :: '\n' :: []) ++ ("Saludos,\nEquipo de Atencion").data := rfl
      rw [hg sig1, hdata, hsplit, ← List.append_assoc]
      exact List.suffix_append _ _
    · rw [hg sig1, hg sig2]

theorem c10_witness :
    (validate_multi_intent ("hola") [] [("amenities")]).1 = false ∧
    ((("Saludos,\nEquipo de Atencion").data <:+
      (generate_with_llm ⟨("other"), [], ("hola"), [], ("es")⟩ [] [("amenities")]
        ("Firma Uno")).draft.data) ∧
     (generate_with_llm ⟨("other"), [], ("hola"), [], ("es")⟩ [] [("amenities")]
        ("Firma Uno")).draft =
      (generate_with_llm ⟨("other"), [], ("hola"), [], ("es")⟩ [] [("amenities")]
        ("Firma Dos")).draft) :=
  ⟨by decide, c10_corrected_signature_free ⟨("other"), [], ("hola"), [], ("es")⟩
    [] [("amenities")] ("Firma Uno") ("Firma Dos") (by decide)⟩
